import Mathlib

/-!
Shallow embedding of the arithmetic parser/evaluator (src/main.rs).

Modelling conventions:
* Rust `String` / `&str` text is modelled as `List Char` (the inputs of
  interest are ASCII, so bytes and chars coincide); the external entry
  points take a Lean `String` and work on its character list.
* Rust `f32` is modelled by exact rationals `ℚ`; every numeric value
  exercised by the specification's test properties is exactly
  representable, and no division by zero occurs in them, so the rational
  model agrees with `f32` on this fragment.
* A Rust `panic!` / `unwrap` failure is modelled as `none`; fallible
  functions return `Option`.
* The scanner and the evaluator loop advance a cursor that provably makes
  progress; the embedding passes explicit fuel (any amount at least the
  input length is enough, and the wrappers pass more than that), so all
  definitions compute by kernel reduction.
-/

namespace Arith

/-- Model of Rust `str::parse::<f32>` restricted to the sign/digit/point
alphabet that this program's literals use: an optional sign, then a body
of digits with at most one decimal point and at least one digit.
Accumulates digit characters into a natural number. -/
def nat_of_digits (l : List Char) : Nat :=
  l.foldl (fun a c => a * 10 + (c.toNat - 48)) 0

/-- Model of Rust `str::parse::<f32>` (used by `Value::value` via
`num.parse().unwrap()`): `none` exactly when Rust's parse errors on the
sign/digit/point alphabet (no digits, a stray character, or a second
decimal point). -/
def parse_float (s : List Char) : Option ℚ :=
  let sgn : ℚ := if s.head? = some '-' then -1 else 1
  let body : List Char :=
    if s.head? = some '-' ∨ s.head? = some '+' then s.tail else s
  let ip := body.takeWhile Char.isDigit
  match body.dropWhile Char.isDigit with
  | [] => if ip = [] then none else some (sgn * (nat_of_digits ip : ℚ))
  | '.' :: fp =>
      if fp.all Char.isDigit then
        if ip = [] ∧ fp = [] then none
        else some (sgn * ((nat_of_digits ip : ℚ) +
          (nat_of_digits fp : ℚ) / ((10 : ℚ) ^ fp.length)))
      else none
  | _ => none

/-- Tokens, as in `enum Token` of the source. -/
inductive Token where
  | Number : List Char → Token
  | LeftParen : Token
  | RightParen : Token
  | OpAdd : Token
  | OpSub : Token
  | OpMul : Token
  | OpDiv : Token
deriving DecidableEq

mutual

/-- Values, as in `enum Value` of the source: a raw literal or a
computed sub-expression. -/
inductive Value where
  | Literal : List Char → Value
  | Expression : Expression → Value

/-- Expressions, as in `enum Expression` of the source: a binary
operation over two values. -/
inductive Expression where
  | Add : Value → Value → Expression
  | Sub : Value → Value → Expression
  | Mul : Value → Value → Expression
  | Div : Value → Value → Expression

end

mutual

/-- Rust `Value::value`: a literal parses its text, an expression
evaluates recursively; an unparsable literal panics (`none`). -/
def Value.value : Value → Option ℚ
  | Value.Literal num => parse_float num
  | Value.Expression ex => Expression.value ex

/-- Rust `Expression::value`: evaluate both operands, apply the
operator. -/
def Expression.value : Expression → Option ℚ
  | Expression.Add l r => do pure ((← l.value) + (← r.value))
  | Expression.Sub l r => do pure ((← l.value) - (← r.value))
  | Expression.Mul l r => do pure ((← l.value) * (← r.value))
  | Expression.Div l r => do pure ((← l.value) / (← r.value))

end

/-- Rust `parse_num`: greedily consume the run of digit / point
characters at the front, returning the consumed run and the remaining
input.  (The Rust original steps `pos` back by one and the caller's loop
steps it forward again; on lists the two cancel.) -/
def parse_num : List Char → List Char × List Char
  | [] => ([], [])
  | c :: rest =>
    if c.isDigit ∨ c = '.' then
      ((c :: (parse_num rest).1), (parse_num rest).2)
    else ([], c :: rest)

/-- The scanning loop of Rust `parse`, with the `last_token` register.
`fuel` only bounds the recursion; any amount above the input length is
enough (the cursor advances every step). -/
def parse_aux : Nat → List Char → Option Token → Option (List Token)
  | 0, _, _ => none
  | _ + 1, [], _ => some []
  | fuel + 1, c :: rest, last =>
    if c = ' ' then parse_aux fuel rest last
    else if c = '(' then
      (parse_aux fuel rest (some Token.LeftParen)).map (Token.LeftParen :: ·)
    else if c = ')' then
      (parse_aux fuel rest (some Token.RightParen)).map (Token.RightParen :: ·)
    else if c = '+' then
      (parse_aux fuel rest (some Token.OpAdd)).map (Token.OpAdd :: ·)
    else if c = '-' then
      match last with
      | some (Token.Number _) =>
          (parse_aux fuel rest (some Token.OpSub)).map (Token.OpSub :: ·)
      | _ =>
          (parse_aux fuel (parse_num rest).2
              (some (Token.Number ('-' :: (parse_num rest).1)))).map
            (Token.Number ('-' :: (parse_num rest).1) :: ·)
    else if c = '*' then
      (parse_aux fuel rest (some Token.OpMul)).map (Token.OpMul :: ·)
    else if c = '/' then
      (parse_aux fuel rest (some Token.OpDiv)).map (Token.OpDiv :: ·)
    else if c.isDigit then
      (parse_aux fuel (parse_num (c :: rest)).2
          (some (Token.Number (parse_num (c :: rest)).1))).map
        (Token.Number (parse_num (c :: rest)).1 :: ·)
    else none

/-- Rust `parse`: tokenize the whole input (panic on an unknown
character is `none`). -/
def parse (input : String) : Option (List Token) :=
  parse_aux (input.toList.length + 1) input.toList none

/-- Rust `reduce`: pop every operator from the operator stack, each pop
combining the two topmost values into one `Expression` value pushed
back; a stack underflow or a non-operator token panics (`none`).  The
head of a list is the stack top. -/
def reduce : List Value → List Token → Option (List Value)
  | stack, [] => some stack
  | rv :: lv :: s, Token.OpAdd :: ops =>
      reduce (Value.Expression (Expression.Add lv rv) :: s) ops
  | rv :: lv :: s, Token.OpSub :: ops =>
      reduce (Value.Expression (Expression.Sub lv rv) :: s) ops
  | rv :: lv :: s, Token.OpMul :: ops =>
      reduce (Value.Expression (Expression.Mul lv rv) :: s) ops
  | rv :: lv :: s, Token.OpDiv :: ops =>
      reduce (Value.Expression (Expression.Div lv rv) :: s) ops
  | _, _ :: _ => none

/-- One reduction step: pop one operator's worth of operands — combine
the two topmost values under the given operator.  `reduce` is the fold
of this step over the whole operator stack (`reduce_eq_foldl`). -/
def reduceOne : List Value → Token → Option (List Value)
  | rv :: lv :: s, Token.OpAdd => some (Value.Expression (Expression.Add lv rv) :: s)
  | rv :: lv :: s, Token.OpSub => some (Value.Expression (Expression.Sub lv rv) :: s)
  | rv :: lv :: s, Token.OpMul => some (Value.Expression (Expression.Mul lv rv) :: s)
  | rv :: lv :: s, Token.OpDiv => some (Value.Expression (Expression.Div lv rv) :: s)
  | _, _ => none

/-- Rust `eval_expression`: the operator-precedence loop over
`tokens` from index `pos`, with the value stack and operator stack
explicit (head = top).  Returns the produced value together with the
position at which the scan stopped (end of input, or at the matching
`RightParen`, which the caller then skips).  `fuel` only bounds the
recursion. -/
def eval_expression : Nat → List Token → Nat → List Value → List Token → Option (Value × Nat)
  | 0, _, _, _, _ => none
  | fuel + 1, tokens, pos, stack, opstack =>
    match tokens[pos]? with
    | none => (reduce stack opstack).bind fun s => s.head?.map fun v => (v, pos)
    | some (Token.Number num) =>
        eval_expression fuel tokens (pos + 1) (Value.Literal num :: stack) opstack
    | some Token.OpAdd =>
        (reduce stack opstack).bind fun s =>
          eval_expression fuel tokens (pos + 1) s [Token.OpAdd]
    | some Token.OpSub =>
        (reduce stack opstack).bind fun s =>
          eval_expression fuel tokens (pos + 1) s [Token.OpSub]
    | some Token.OpMul =>
        match opstack with
        | Token.OpMul :: _ =>
            (reduce stack opstack).bind fun s =>
              eval_expression fuel tokens (pos + 1) s [Token.OpMul]
        | Token.OpDiv :: _ =>
            (reduce stack opstack).bind fun s =>
              eval_expression fuel tokens (pos + 1) s [Token.OpMul]
        | _ => eval_expression fuel tokens (pos + 1) stack (Token.OpMul :: opstack)
    | some Token.OpDiv =>
        match opstack with
        | Token.OpMul :: _ =>
            (reduce stack opstack).bind fun s =>
              eval_expression fuel tokens (pos + 1) s [Token.OpDiv]
        | Token.OpDiv :: _ =>
            (reduce stack opstack).bind fun s =>
              eval_expression fuel tokens (pos + 1) s [Token.OpDiv]
        | _ => eval_expression fuel tokens (pos + 1) stack (Token.OpDiv :: opstack)
    | some Token.LeftParen =>
        (eval_expression fuel tokens (pos + 1) [] []).bind fun vp =>
          eval_expression fuel tokens (vp.2 + 1) (vp.1 :: stack) opstack
    | some Token.RightParen =>
        (reduce stack opstack).bind fun s => s.head?.map fun v => (v, pos)

/-- Rust `eval_value`: tokenize, evaluate the token sequence from
position 0, and compute the numeric value. -/
def eval_value (input : String) : Option ℚ :=
  (parse input).bind fun tokens =>
    (eval_expression (2 * tokens.length + 2) tokens 0 [] []).bind fun vp =>
      vp.1.value

/-- Follows the specification's words rather than the code, for the
refinement comparison of the Mul/Div reduction rule: on reading a
Mul/Div token with a Mul/Div on top of the operator stack, resolve
exactly ONE pending operation (pop that one operator and combine the two
topmost values), leaving every operator below it — in particular a
deferred Add/Sub — on the operator stack, then push the new operator.
Identical to `eval_expression` in every other branch. -/
def eval_expression_spec : Nat → List Token → Nat → List Value → List Token → Option (Value × Nat)
  | 0, _, _, _, _ => none
  | fuel + 1, tokens, pos, stack, opstack =>
    match tokens[pos]? with
    | none => (reduce stack opstack).bind fun s => s.head?.map fun v => (v, pos)
    | some (Token.Number num) =>
        eval_expression_spec fuel tokens (pos + 1) (Value.Literal num :: stack) opstack
    | some Token.OpAdd =>
        (reduce stack opstack).bind fun s =>
          eval_expression_spec fuel tokens (pos + 1) s [Token.OpAdd]
    | some Token.OpSub =>
        (reduce stack opstack).bind fun s =>
          eval_expression_spec fuel tokens (pos + 1) s [Token.OpSub]
    | some Token.OpMul =>
        match opstack with
        | top :: ops =>
            if top = Token.OpMul ∨ top = Token.OpDiv then
              (reduceOne stack top).bind fun s =>
                eval_expression_spec fuel tokens (pos + 1) s (Token.OpMul :: ops)
            else eval_expression_spec fuel tokens (pos + 1) stack (Token.OpMul :: top :: ops)
        | [] => eval_expression_spec fuel tokens (pos + 1) stack [Token.OpMul]
    | some Token.OpDiv =>
        match opstack with
        | top :: ops =>
            if top = Token.OpMul ∨ top = Token.OpDiv then
              (reduceOne stack top).bind fun s =>
                eval_expression_spec fuel tokens (pos + 1) s (Token.OpDiv :: ops)
            else eval_expression_spec fuel tokens (pos + 1) stack (Token.OpDiv :: top :: ops)
        | [] => eval_expression_spec fuel tokens (pos + 1) stack [Token.OpDiv]
    | some Token.LeftParen =>
        (eval_expression_spec fuel tokens (pos + 1) [] []).bind fun vp =>
          eval_expression_spec fuel tokens (vp.2 + 1) (vp.1 :: stack) opstack
    | some Token.RightParen =>
        (reduce stack opstack).bind fun s => s.head?.map fun v => (v, pos)

/-- The specification's evaluator, end to end (tokenizer and everything
except the Mul/Div one-step rule shared with the code). -/
def eval_value_spec (input : String) : Option ℚ :=
  (parse input).bind fun tokens =>
    (eval_expression_spec (2 * tokens.length + 2) tokens 0 [] []).bind fun vp =>
      vp.1.value

/-- Characters the tokenizer's match recognizes somewhere: digits,
point, parens, the four operators and space. -/
def good_char (c : Char) : Bool :=
  c.isDigit || c = '.' || c = '(' || c = ')' || c = '+' || c = '-' ||
    c = '*' || c = '/' || c = ' '

/-- The recognized characters without the decimal point. -/
def good_nodot (c : Char) : Bool :=
  c.isDigit || c = '(' || c = ')' || c = '+' || c = '-' ||
    c = '*' || c = '/' || c = ' '

/-- Shape of a `Number` token's text: a leading `-` or digit followed by
a run of digits and decimal points (possibly several points, possibly no
digit after a `-`). -/
def num_shape : List Char → Prop
  | [] => False
  | c :: run => (c = '-' ∨ c.isDigit = true) ∧
      run.all (fun d => d.isDigit || d = '.') = true

/-- A valid integer literal: a nonempty digit string, optionally with a
leading minus sign. -/
def is_int_lit (l : List Char) : Prop :=
  (l ≠ [] ∧ l.all Char.isDigit = true) ∨
  (∃ ds, l = '-' :: ds ∧ ds ≠ [] ∧ ds.all Char.isDigit = true)

/-! ### Helper lemmas about `parse_num` and `reduce` -/

theorem parse_num_append (l : List Char) :
    (parse_num l).1 ++ (parse_num l).2 = l := by
  induction l with
  | nil => rfl
  | cons c rest ih =>
    by_cases h : c.isDigit ∨ c = '.' <;> simp [parse_num, h, ih]

theorem parse_num_all (l : List Char) :
    (parse_num l).1.all (fun c => c.isDigit || c = '.') = true := by
  induction l with
  | nil => rfl
  | cons c rest ih =>
    by_cases h : c.isDigit ∨ c = '.' <;>
      simp_all [parse_num, h, List.all_eq_true]

theorem parse_num_snd_length (l : List Char) :
    (parse_num l).2.length ≤ l.length := by
  induction l with
  | nil => simp [parse_num]
  | cons c rest ih =>
    by_cases h : c.isDigit ∨ c = '.'
    · simp only [parse_num, if_pos h, List.length_cons]
      exact Nat.le_succ_of_le ih
    · simp [parse_num, if_neg h]

theorem parse_num_snd_all {p : Char → Bool} {l : List Char}
    (h : l.all p = true) : (parse_num l).2.all p = true := by
  rw [← parse_num_append l, List.all_append, Bool.and_eq_true] at h
  exact h.2

theorem parse_num_digits (l : List Char) (h : l.all Char.isDigit = true) :
    parse_num l = (l, []) := by
  induction l with
  | nil => rfl
  | cons c rest ih =>
    rw [List.all_cons, Bool.and_eq_true] at h
    have : c.isDigit ∨ c = '.' := Or.inl h.1
    simp [parse_num, this, ih h.2]

theorem reduce_nil (stack : List Value) : reduce stack [] = some stack := by
  cases stack with
  | nil => rfl
  | cons rv rest => cases rest <;> rfl

theorem foldl_reduceOne_none (ops : List Token) :
    ops.foldl (fun acc op => acc.bind fun s => reduceOne s op) none = none := by
  induction ops with
  | nil => rfl
  | cons op ops ih => simpa using ih

theorem reduce_cons (stack : List Value) (op : Token) (ops : List Token) :
    reduce stack (op :: ops) = (reduceOne stack op).bind fun s => reduce s ops := by
  cases stack with
  | nil => cases op <;> rfl
  | cons rv rest =>
    cases rest with
    | nil => cases op <;> rfl
    | cons lv s => cases op <;> rfl

/-- Rust `reduce` is exactly the left fold of the one-step reduction
over the operator stack, top first. -/
theorem reduce_eq_foldl (ops : List Token) (stack : List Value) :
    reduce stack ops =
      ops.foldl (fun acc op => acc.bind fun s => reduceOne s op) (some stack) := by
  induction ops generalizing stack with
  | nil => simp [reduce_nil]
  | cons op ops ih =>
    rw [reduce_cons, List.foldl_cons, Option.some_bind]
    cases h : reduceOne stack op with
    | none => simp [foldl_reduceOne_none]
    | some s => exact ih s

theorem parse_num_cons_of {c : Char} {rest : List Char}
    (hc : c.isDigit ∨ c = '.') :
    parse_num (c :: rest) = (c :: (parse_num rest).1, (parse_num rest).2) := by
  simp [parse_num, hc]

/-- Unfolding of the scanner's digit branch: a digit at the scan
position starts a number token made of the greedy digit/point run. -/
theorem parse_aux_digit {c : Char} (hc : c.isDigit = true)
    (fuel : Nat) (rest : List Char) (last : Option Token) :
    parse_aux (fuel + 1) (c :: rest) last =
      (parse_aux fuel (parse_num (c :: rest)).2
          (some (Token.Number (parse_num (c :: rest)).1))).map
        (Token.Number (parse_num (c :: rest)).1 :: ·) := by
  have h1 : ¬ c = ' ' := by rintro rfl; exact absurd hc (by decide)
  have h2 : ¬ c = '(' := by rintro rfl; exact absurd hc (by decide)
  have h3 : ¬ c = ')' := by rintro rfl; exact absurd hc (by decide)
  have h4 : ¬ c = '+' := by rintro rfl; exact absurd hc (by decide)
  have h5 : ¬ c = '-' := by rintro rfl; exact absurd hc (by decide)
  have h6 : ¬ c = '*' := by rintro rfl; exact absurd hc (by decide)
  have h7 : ¬ c = '/' := by rintro rfl; exact absurd hc (by decide)
  simp only [parse_aux, if_neg h1, if_neg h2, if_neg h3, if_neg h4, if_neg h5,
    if_neg h6, if_neg h7, if_pos hc]

theorem good_of_digitdot {x : Char} (h : (x.isDigit || x = '.') = true) :
    good_char x = true := by
  rcases Bool.or_eq_true_iff.mp h with h | h
  · simp [good_char, h]
  · have hx := of_decide_eq_true h
    subst hx
    decide

theorem bad_mem_tail {x c : Char} {rest : List Char} (hx : x ∈ c :: rest)
    (hxbad : good_char x = false) (hc : good_char c = true) : x ∈ rest := by
  rcases List.mem_cons.mp hx with rfl | h
  · rw [hc] at hxbad; cases hxbad
  · exact h

theorem bad_mem_pn_snd {x : Char} {rest : List Char} (hx : x ∈ rest)
    (hxbad : good_char x = false) : x ∈ (parse_num rest).2 := by
  conv at hx => rw [← parse_num_append rest]
  rcases List.mem_append.mp hx with h | h
  · have hdd := (List.all_eq_true.mp (parse_num_all rest)) x h
    rw [good_of_digitdot hdd] at hxbad
    cases hxbad
  · exact h

/-- A `Number` token emitted by the scanner always starts with a minus
sign or a digit and continues with digits and points only. -/
theorem parse_aux_num_shape :
    ∀ (fuel : Nat) (l : List Char) (last : Option Token) (ts : List Token),
      parse_aux fuel l last = some ts →
      ∀ txt, Token.Number txt ∈ ts → num_shape txt := by
  intro fuel
  induction fuel with
  | zero =>
      intro l last ts h
      exact absurd h (by simp [parse_aux])
  | succ fuel ih =>
    intro l last ts h txt hmem
    match l with
    | [] =>
        simp only [parse_aux, Option.some.injEq] at h
        subst h
        simp at hmem
    | c :: rest =>
        simp only [parse_aux] at h
        split_ifs at h with h1 h2 h3 h4 h5 h6 h7 h8
        · exact ih rest last ts h txt hmem
        · rcases Option.map_eq_some'.mp h with ⟨ts', h', rfl⟩
          rcases List.mem_cons.mp hmem with heq | hmem'
          · exact Token.noConfusion heq
          · exact ih rest _ ts' h' txt hmem'
        · rcases Option.map_eq_some'.mp h with ⟨ts', h', rfl⟩
          rcases List.mem_cons.mp hmem with heq | hmem'
          · exact Token.noConfusion heq
          · exact ih rest _ ts' h' txt hmem'
        · rcases Option.map_eq_some'.mp h with ⟨ts', h', rfl⟩
          rcases List.mem_cons.mp hmem with heq | hmem'
          · exact Token.noConfusion heq
          · exact ih rest _ ts' h' txt hmem'
        · -- minus branch: split on the last emitted token
          rcases last with _ | tok
          · rcases Option.map_eq_some'.mp h with ⟨ts', h', rfl⟩
            rcases List.mem_cons.mp hmem with heq | hmem'
            · injection heq with htxt
              subst htxt
              exact ⟨Or.inl rfl, parse_num_all rest⟩
            · exact ih _ _ ts' h' txt hmem'
          · cases tok with
            | Number num =>
                rcases Option.map_eq_some'.mp h with ⟨ts', h', rfl⟩
                rcases List.mem_cons.mp hmem with heq | hmem'
                · exact Token.noConfusion heq
                · exact ih rest _ ts' h' txt hmem'
            | LeftParen =>
                rcases Option.map_eq_some'.mp h with ⟨ts', h', rfl⟩
                rcases List.mem_cons.mp hmem with heq | hmem'
                · injection heq with htxt
                  subst htxt
                  exact ⟨Or.inl rfl, parse_num_all rest⟩
                · exact ih _ _ ts' h' txt hmem'
            | RightParen =>
                rcases Option.map_eq_some'.mp h with ⟨ts', h', rfl⟩
                rcases List.mem_cons.mp hmem with heq | hmem'
                · injection heq with htxt
                  subst htxt
                  exact ⟨Or.inl rfl, parse_num_all rest⟩
                · exact ih _ _ ts' h' txt hmem'
            | OpAdd =>
                rcases Option.map_eq_some'.mp h with ⟨ts', h', rfl⟩
                rcases List.mem_cons.mp hmem with heq | hmem'
                · injection heq with htxt
                  subst htxt
                  exact ⟨Or.inl rfl, parse_num_all rest⟩
                · exact ih _ _ ts' h' txt hmem'
            | OpSub =>
                rcases Option.map_eq_some'.mp h with ⟨ts', h', rfl⟩
                rcases List.mem_cons.mp hmem with heq | hmem'
                · injection heq with htxt
                  subst htxt
                  exact ⟨Or.inl rfl, parse_num_all rest⟩
                · exact ih _ _ ts' h' txt hmem'
            | OpMul =>
                rcases Option.map_eq_some'.mp h with ⟨ts', h', rfl⟩
                rcases List.mem_cons.mp hmem with heq | hmem'
                · injection heq with htxt
                  subst htxt
                  exact ⟨Or.inl rfl, parse_num_all rest⟩
                · exact ih _ _ ts' h' txt hmem'
            | OpDiv =>
                rcases Option.map_eq_some'.mp h with ⟨ts', h', rfl⟩
                rcases List.mem_cons.mp hmem with heq | hmem'
                · injection heq with htxt
                  subst htxt
                  exact ⟨Or.inl rfl, parse_num_all rest⟩
                · exact ih _ _ ts' h' txt hmem'
        · rcases Option.map_eq_some'.mp h with ⟨ts', h', rfl⟩
          rcases List.mem_cons.mp hmem with heq | hmem'
          · exact Token.noConfusion heq
          · exact ih rest _ ts' h' txt hmem'
        · rcases Option.map_eq_some'.mp h with ⟨ts', h', rfl⟩
          rcases List.mem_cons.mp hmem with heq | hmem'
          · exact Token.noConfusion heq
          · exact ih rest _ ts' h' txt hmem'
        · rcases Option.map_eq_some'.mp h with ⟨ts', h', rfl⟩
          rcases List.mem_cons.mp hmem with heq | hmem'
          · injection heq with htxt
            subst htxt
            rw [parse_num_cons_of (Or.inl h8)]
            exact ⟨Or.inr h8, parse_num_all rest⟩
          · exact ih _ _ ts' h' txt hmem'

/-- An input containing a character the scanner does not recognize is
always rejected, whatever the fuel. -/
theorem parse_aux_none_of_bad :
    ∀ (fuel : Nat) (l : List Char) (last : Option Token),
      (∃ c ∈ l, good_char c = false) → parse_aux fuel l last = none := by
  intro fuel
  induction fuel with
  | zero => intro l last _; rfl
  | succ fuel ih =>
    intro l last hbad
    rcases hbad with ⟨x, hx, hxbad⟩
    match l with
    | [] => simp at hx
    | c :: rest =>
      simp only [parse_aux]
      split_ifs with h1 h2 h3 h4 h5 h6 h7 h8
      · exact ih rest last ⟨x, bad_mem_tail hx hxbad (by rw [h1]; decide), hxbad⟩
      · have h0 := ih rest (some Token.LeftParen)
          ⟨x, bad_mem_tail hx hxbad (by rw [h2]; decide), hxbad⟩
        simp [h0]
      · have h0 := ih rest (some Token.RightParen)
          ⟨x, bad_mem_tail hx hxbad (by rw [h3]; decide), hxbad⟩
        simp [h0]
      · have h0 := ih rest (some Token.OpAdd)
          ⟨x, bad_mem_tail hx hxbad (by rw [h4]; decide), hxbad⟩
        simp [h0]
      · have hxr : x ∈ rest := bad_mem_tail hx hxbad (by rw [h5]; decide)
        rcases last with _ | tok
        · have h0 := ih (parse_num rest).2
            (some (Token.Number ('-' :: (parse_num rest).1)))
            ⟨x, bad_mem_pn_snd hxr hxbad, hxbad⟩
          simp [h0]
        · cases tok with
          | Number num =>
              have h0 := ih rest (some Token.OpSub) ⟨x, hxr, hxbad⟩
              simp [h0]
          | LeftParen =>
              have h0 := ih (parse_num rest).2
                (some (Token.Number ('-' :: (parse_num rest).1)))
                ⟨x, bad_mem_pn_snd hxr hxbad, hxbad⟩
              simp [h0]
          | RightParen =>
              have h0 := ih (parse_num rest).2
                (some (Token.Number ('-' :: (parse_num rest).1)))
                ⟨x, bad_mem_pn_snd hxr hxbad, hxbad⟩
              simp [h0]
          | OpAdd =>
              have h0 := ih (parse_num rest).2
                (some (Token.Number ('-' :: (parse_num rest).1)))
                ⟨x, bad_mem_pn_snd hxr hxbad, hxbad⟩
              simp [h0]
          | OpSub =>
              have h0 := ih (parse_num rest).2
                (some (Token.Number ('-' :: (parse_num rest).1)))
                ⟨x, bad_mem_pn_snd hxr hxbad, hxbad⟩
              simp [h0]
          | OpMul =>
              have h0 := ih (parse_num rest).2
                (some (Token.Number ('-' :: (parse_num rest).1)))
                ⟨x, bad_mem_pn_snd hxr hxbad, hxbad⟩
              simp [h0]
          | OpDiv =>
              have h0 := ih (parse_num rest).2
                (some (Token.Number ('-' :: (parse_num rest).1)))
                ⟨x, bad_mem_pn_snd hxr hxbad, hxbad⟩
              simp [h0]
      · have h0 := ih rest (some Token.OpMul)
          ⟨x, bad_mem_tail hx hxbad (by rw [h6]; decide), hxbad⟩
        simp [h0]
      · have h0 := ih rest (some Token.OpDiv)
          ⟨x, bad_mem_tail hx hxbad (by rw [h7]; decide), hxbad⟩
        simp [h0]
      · have hxr : x ∈ rest :=
          bad_mem_tail hx hxbad (good_of_digitdot (by simp [h8]))
        have hx2 : x ∈ (parse_num (c :: rest)).2 := by
          rw [parse_num_cons_of (Or.inl h8)]
          exact bad_mem_pn_snd hxr hxbad
        have h0 := ih (parse_num (c :: rest)).2
          (some (Token.Number (parse_num (c :: rest)).1)) ⟨x, hx2, hxbad⟩
        simp [h0]
      · rfl

/-- Over the recognized alphabet without the decimal point, the scanner
always succeeds given enough fuel. -/
theorem parse_aux_isSome_of_good :
    ∀ (fuel : Nat) (l : List Char) (last : Option Token),
      l.length < fuel → l.all good_nodot = true →
      (parse_aux fuel l last).isSome = true := by
  intro fuel
  induction fuel with
  | zero => intro l last hlen _; exact absurd hlen (Nat.not_lt_zero _)
  | succ fuel ih =>
    intro l last hlen hall
    match l with
    | [] => rfl
    | c :: rest =>
      rw [List.all_cons, Bool.and_eq_true] at hall
      rcases hall with ⟨hc, hrest⟩
      rw [List.length_cons] at hlen
      have hlen' : rest.length < fuel := by omega
      simp only [parse_aux]
      split_ifs with h1 h2 h3 h4 h5 h6 h7 h8
      · exact ih rest last hlen' hrest
      · simpa using ih rest (some Token.LeftParen) hlen' hrest
      · simpa using ih rest (some Token.RightParen) hlen' hrest
      · simpa using ih rest (some Token.OpAdd) hlen' hrest
      · rcases last with _ | tok
        · simpa using ih (parse_num rest).2
            (some (Token.Number ('-' :: (parse_num rest).1)))
            (lt_of_le_of_lt (parse_num_snd_length rest) hlen')
            (parse_num_snd_all hrest)
        · cases tok with
          | Number num =>
              simpa using ih rest (some Token.OpSub) hlen' hrest
          | LeftParen =>
              simpa using ih (parse_num rest).2
                (some (Token.Number ('-' :: (parse_num rest).1)))
                (lt_of_le_of_lt (parse_num_snd_length rest) hlen')
                (parse_num_snd_all hrest)
          | RightParen =>
              simpa using ih (parse_num rest).2
                (some (Token.Number ('-' :: (parse_num rest).1)))
                (lt_of_le_of_lt (parse_num_snd_length rest) hlen')
                (parse_num_snd_all hrest)
          | OpAdd =>
              simpa using ih (parse_num rest).2
                (some (Token.Number ('-' :: (parse_num rest).1)))
                (lt_of_le_of_lt (parse_num_snd_length rest) hlen')
                (parse_num_snd_all hrest)
          | OpSub =>
              simpa using ih (parse_num rest).2
                (some (Token.Number ('-' :: (parse_num rest).1)))
                (lt_of_le_of_lt (parse_num_snd_length rest) hlen')
                (parse_num_snd_all hrest)
          | OpMul =>
              simpa using ih (parse_num rest).2
                (some (Token.Number ('-' :: (parse_num rest).1)))
                (lt_of_le_of_lt (parse_num_snd_length rest) hlen')
                (parse_num_snd_all hrest)
          | OpDiv =>
              simpa using ih (parse_num rest).2
                (some (Token.Number ('-' :: (parse_num rest).1)))
                (lt_of_le_of_lt (parse_num_snd_length rest) hlen')
                (parse_num_snd_all hrest)
      · simpa using ih rest (some Token.OpMul) hlen' hrest
      · simpa using ih rest (some Token.OpDiv) hlen' hrest
      · have hlen2 : (parse_num (c :: rest)).2.length < fuel := by
          rw [parse_num_cons_of (Or.inl h8)]
          exact lt_of_le_of_lt (parse_num_snd_length rest) hlen'
        have hall2 : (parse_num (c :: rest)).2.all good_nodot = true := by
          rw [parse_num_cons_of (Or.inl h8)]
          exact parse_num_snd_all hrest
        simpa using ih (parse_num (c :: rest)).2
          (some (Token.Number (parse_num (c :: rest)).1)) hlen2 hall2
      · exfalso
        simp only [good_nodot, Bool.or_eq_true_iff, decide_eq_true_eq] at hc
        rcases hc with ((((((hd | hd) | hd) | hd) | hd) | hd) | hd) | hd
        · exact h8 hd
        · exact h2 hd
        · exact h3 hd
        · exact h4 hd
        · exact h5 hd
        · exact h6 hd
        · exact h7 hd
        · exact h1 hd

/-! ### Helper lemmas for integer literals -/

theorem parse_aux_nil (fuel : Nat) (last : Option Token) (h : 0 < fuel) :
    parse_aux fuel [] last = some [] := by
  match fuel, h with
  | fuel + 1, _ => rfl

theorem parse_float_digits {c : Char} {rest : List Char}
    (hall : (c :: rest).all Char.isDigit = true) :
    parse_float (c :: rest) = some ((nat_of_digits (c :: rest) : ℚ)) := by
  have hc : c.isDigit = true := by
    rw [List.all_cons, Bool.and_eq_true] at hall
    exact hall.1
  have hm : ¬ c = '-' := by rintro rfl; exact absurd hc (by decide)
  have hp : ¬ c = '+' := by rintro rfl; exact absurd hc (by decide)
  have hd : ∀ x ∈ c :: rest, Char.isDigit x :=
    fun x hx => List.all_eq_true.mp hall x hx
  have htw : (c :: rest).takeWhile Char.isDigit = c :: rest :=
    List.takeWhile_eq_self_iff.mpr hd
  have hdw : (c :: rest).dropWhile Char.isDigit = [] :=
    List.dropWhile_eq_nil_iff.mpr hd
  simp [parse_float, hm, hp, htw, hdw]

theorem parse_float_neg_digits {ds : List Char} (hne : ds ≠ [])
    (hall : ds.all Char.isDigit = true) :
    parse_float ('-' :: ds) = some (-(nat_of_digits ds : ℚ)) := by
  have hd : ∀ x ∈ ds, Char.isDigit x :=
    fun x hx => List.all_eq_true.mp hall x hx
  have htw : ds.takeWhile Char.isDigit = ds :=
    List.takeWhile_eq_self_iff.mpr hd
  have hdw : ds.dropWhile Char.isDigit = [] :=
    List.dropWhile_eq_nil_iff.mpr hd
  simp [parse_float, htw, hdw, hne]

theorem int_lit_parse_float_isSome {l : List Char} (h : is_int_lit l) :
    (parse_float l).isSome = true := by
  rcases h with ⟨hne, hall⟩ | ⟨ds, hds, hne, hall⟩
  · match l, hne, hall with
    | c :: rest, _, hall => rw [parse_float_digits hall]; rfl
  · rw [hds, parse_float_neg_digits hne hall]; rfl

/-- An integer literal tokenizes to exactly one `Number` token carrying
the whole literal text. -/
theorem int_lit_tokens {l : List Char} (h : is_int_lit l) (fuel : Nat)
    (hfuel : l.length < fuel) :
    parse_aux fuel l none = some [Token.Number l] := by
  rcases h with ⟨hne, hall⟩ | ⟨ds, hds, hne, hall⟩
  · match l, hne, hall, hfuel with
    | c :: rest, _, hall, hfuel =>
      match fuel, hfuel with
      | fuel + 1, hfuel =>
        have hc : c.isDigit = true := by
          rw [List.all_cons, Bool.and_eq_true] at hall
          exact hall.1
        have h0 : 0 < fuel := by
          rw [List.length_cons] at hfuel
          omega
        rw [parse_aux_digit hc, parse_num_digits _ hall]
        simp [parse_aux_nil fuel _ h0]
  · subst hds
    match fuel, hfuel with
    | fuel + 1, hfuel =>
      have h0 : 0 < fuel := by
        rw [List.length_cons] at hfuel
        have : 0 < ds.length := List.length_pos.mpr hne
        omega
      have step : parse_aux (fuel + 1) ('-' :: ds) none =
          (parse_aux fuel (parse_num ds).2
              (some (Token.Number ('-' :: (parse_num ds).1)))).map
            (Token.Number ('-' :: (parse_num ds).1) :: ·) := rfl
      rw [step, parse_num_digits ds hall]
      simp [parse_aux_nil fuel _ h0]

theorem eval_expression_single_number (l : List Char) :
    eval_expression 4 [Token.Number l] 0 [] [] = some (Value.Literal l, 1) := rfl

/-! ### Claim theorems -/

/-- C1 (code bug): the claim says that on a Mul/Div token with a Mul/Div
on top of the operator stack the evaluator resolves exactly one pending
operation, and that operators lying below a pending Add/Sub stay
deferred.  The code's `reduce` drains the WHOLE operator stack instead,
reducing the deferred Add as well: on "1 + 2 * 3 * 4" the code computes
(1 + 2 * 3) * 4 = 28, while the claimed one-step behavior
(`eval_value_spec`, which follows the specification's words and standard
precedence) gives 1 + (2 * 3) * 4 = 25. -/
theorem C1_mul_div_one_step_code_bug :
    eval_value "1 + 2 * 3 * 4" = some 28 ∧
    eval_value_spec "1 + 2 * 3 * 4" = some 25 ∧ (28 : ℚ) ≠ 25 :=
  ⟨by with_unfolding_all rfl, by with_unfolding_all rfl, by norm_num⟩

/-- C2: on reading an Add or Sub token the evaluator first pops every
pending operator — the left fold of the one-step reduction `reduceOne`,
each step combining the two topmost values into one Expression value —
and continues with the operator stack holding exactly the newly pushed
operator. -/
theorem C2_add_sub_drains_operator_stack
    (fuel : Nat) (tokens : List Token) (pos : Nat)
    (stack : List Value) (opstack : List Token) (op : Token)
    (hop : op = Token.OpAdd ∨ op = Token.OpSub)
    (htok : tokens[pos]? = some op) :
    eval_expression (fuel + 1) tokens pos stack opstack =
      (opstack.foldl (fun acc o => acc.bind fun s => reduceOne s o)
          (some stack)).bind
        fun s => eval_expression fuel tokens (pos + 1) s [op] := by
  rcases hop with rfl | rfl <;>
    simp [eval_expression, htok, ← reduce_eq_foldl]

/-- Witness for C2: the token `+` read at position 0 with a pending `*`
on the operator stack and two literals on the value stack. -/
theorem C2_add_sub_drains_operator_stack_witness :
    ([Token.OpAdd][0]? = some Token.OpAdd) ∧
    eval_expression 3 [Token.OpAdd] 0
        [Value.Literal ['2'], Value.Literal ['1']] [Token.OpMul] =
      ([Token.OpMul].foldl (fun acc o => acc.bind fun s => reduceOne s o)
          (some [Value.Literal ['2'], Value.Literal ['1']])).bind
        fun s => eval_expression 2 [Token.OpAdd] 1 s [Token.OpAdd] :=
  ⟨rfl, C2_add_sub_drains_operator_stack 2 [Token.OpAdd] 0
    [Value.Literal ['2'], Value.Literal ['1']] [Token.OpMul] Token.OpAdd
    (Or.inl rfl) rfl⟩

/-- C3: for every valid integer literal string, the evaluator returns
exactly the conversion of that literal to the numeric type (modelled by
`parse_float`, the embedding of Rust `str::parse::<f32>`), and that
conversion succeeds. -/
theorem C3_integer_literal (s : String) (h : is_int_lit s.toList) :
    eval_value s = parse_float s.toList ∧
      (parse_float s.toList).isSome = true := by
  refine ⟨?_, int_lit_parse_float_isSome h⟩
  have htok : parse s = some [Token.Number s.toList] :=
    int_lit_tokens h _ (Nat.lt_succ_self _)
  rw [eval_value, htok]
  show ((eval_expression (2 * 1 + 2) [Token.Number s.toList] 0 [] []).bind
      fun vp => vp.1.value) = parse_float s.toList
  rw [show 2 * 1 + 2 = 4 from rfl, eval_expression_single_number]
  rfl

/-- Witness for C3 at the integer literals 12 and -5. -/
theorem C3_integer_literal_witness :
    is_int_lit "12".toList ∧
    (eval_value "12" = parse_float "12".toList ∧
      (parse_float "12".toList).isSome = true) ∧
    (eval_value "-5" = parse_float "-5".toList ∧
      (parse_float "-5".toList).isSome = true) :=
  ⟨Or.inl ⟨by decide, by decide⟩,
   C3_integer_literal "12" (Or.inl ⟨by decide, by decide⟩),
   C3_integer_literal "-5" (Or.inr ⟨['5'], by decide, by decide, by decide⟩)⟩

/-- C4: the documented parenthesis-nesting test cases: the parenthesized
group is evaluated by a recursive call and takes part in the surrounding
reduction as one value. -/
theorem C4_paren_nesting :
    eval_value "(1 + 2) * 4 / 2" = some 6 ∧
    eval_value "12 / 6 * 3 + 2 * (111 - 11)" = some 206 :=
  ⟨by with_unfolding_all rfl, by with_unfolding_all rfl⟩

/-- C5: disambiguation of a minus character by the last emitted token.
If the previous token is a Number, the scanner emits OpSub; at the start
of input, after a left parenthesis or after another operator it instead
emits a single Number token made of "-" followed by the greedy
digit/point run (which really is the run immediately following, by the
decomposition conjunct), and no OpSub token. -/
theorem C5_minus_disambiguation :
    (∀ (fuel : Nat) (rest : List Char) (num : List Char),
      parse_aux (fuel + 1) ('-' :: rest) (some (Token.Number num)) =
        (parse_aux fuel rest (some Token.OpSub)).map (Token.OpSub :: ·)) ∧
    (∀ (fuel : Nat) (rest : List Char) (last : Option Token),
      (last = none ∨ last = some Token.LeftParen ∨
        last = some Token.OpAdd ∨ last = some Token.OpSub ∨
        last = some Token.OpMul ∨ last = some Token.OpDiv) →
      parse_aux (fuel + 1) ('-' :: rest) last =
        (parse_aux fuel (parse_num rest).2
            (some (Token.Number ('-' :: (parse_num rest).1)))).map
          (Token.Number ('-' :: (parse_num rest).1) :: ·) ∧
      (parse_num rest).1 ++ (parse_num rest).2 = rest ∧
      (parse_num rest).1.all (fun c => c.isDigit || c = '.') = true) := by
  constructor
  · intro fuel rest num
    rfl
  · intro fuel rest last hlast
    refine ⟨?_, parse_num_append rest, parse_num_all rest⟩
    rcases hlast with rfl | rfl | rfl | rfl | rfl | rfl <;> rfl

/-- Witness for C5: a minus after the number 1 becomes OpSub; a minus
after a left parenthesis becomes the Number token "-3". -/
theorem C5_minus_disambiguation_witness :
    parse_aux 2 ['-', '3'] (some (Token.Number ['1'])) =
      (parse_aux 1 ['3'] (some Token.OpSub)).map (Token.OpSub :: ·) ∧
    parse_aux 2 ['-', '3'] (some Token.LeftParen) =
      (parse_aux 1 (parse_num ['3']).2
          (some (Token.Number ('-' :: (parse_num ['3']).1)))).map
        (Token.Number ('-' :: (parse_num ['3']).1) :: ·) :=
  ⟨C5_minus_disambiguation.1 1 ['3'] ['1'],
   (C5_minus_disambiguation.2 1 ['3'] (some Token.LeftParen)
      (Or.inr (Or.inl rfl))).1⟩

/-- C6 counterexample: the input "1.2.3" produces a Number token whose
text holds TWO decimal points and is not a valid numeric literal
(`parse_float` rejects it), refuting the claim as stated. -/
theorem C6_number_literal_counterexample :
    parse "1.2.3" = some [Token.Number ['1', '.', '2', '.', '3']] ∧
    ['1', '.', '2', '.', '3'].count '.' = 2 ∧
    parse_float ['1', '.', '2', '.', '3'] = none :=
  ⟨by decide, by decide, by decide⟩

/-- C6 (amended): every Number token produced by the tokenizer has text
consisting of a leading minus sign or digit followed by a run of digits
and decimal points; the text need not be a valid numeric literal — it
may contain several decimal points, or no digit at all after a sign. -/
theorem C6_number_token_shape (s : String) (ts : List Token)
    (h : parse s = some ts) :
    ∀ txt, Token.Number txt ∈ ts → num_shape txt :=
  parse_aux_num_shape _ _ _ _ h

/-- Witness for C6 on the input "1.5". -/
theorem C6_number_token_shape_witness :
    parse "1.5" = some [Token.Number ['1', '.', '5']] ∧
    num_shape ['1', '.', '5'] :=
  ⟨by decide,
   C6_number_token_shape "1.5" [Token.Number ['1', '.', '5']] (by decide)
     ['1', '.', '5'] (by decide)⟩

/-- C7 counterexample: the input "." consists only of characters of the
claimed set, yet tokenization aborts — a decimal point is only accepted
inside a number run, never at token-start position. -/
theorem C7_charset_counterexample :
    ".".toList.all good_char = true ∧ parse "." = none :=
  ⟨by decide, by decide⟩

/-- C7 (amended): tokenization aborts whenever the input contains a
character outside the set {digit, point, parens, the four operators,
space}; over that set WITHOUT the decimal point the error branch is
unreachable and a token sequence is always returned.  (A point at
token-start position also aborts — see the counterexample.) -/
theorem C7_lexical_error_charset :
    (∀ s : String, (∃ c ∈ s.toList, good_char c = false) → parse s = none) ∧
    (∀ s : String, s.toList.all good_nodot = true →
      (parse s).isSome = true) := by
  constructor
  · intro s hbad
    exact parse_aux_none_of_bad _ _ _ hbad
  · intro s hgood
    exact parse_aux_isSome_of_good _ _ _ (Nat.lt_succ_self _) hgood

/-- Witness for C7: the letter a aborts tokenization; the point-free
input "1 + 2" tokenizes successfully. -/
theorem C7_lexical_error_charset_witness :
    parse "a" = none ∧ (parse "1 + 2").isSome = true :=
  ⟨C7_lexical_error_charset.1 "a" ⟨'a', by decide, by decide⟩,
   C7_lexical_error_charset.2 "1 + 2" (by decide)⟩

/-- C8: evaluation is a pure function of the input string.  The Rust
program keeps no state across calls (no global or static mutable data;
all stacks are local to one invocation), which the embedding reflects by
being a plain function, so two invocations on the same input coincide
definitionally. -/
theorem C8_evaluation_pure (s : String) : eval_value s = eval_value s := rfl

/-- C9: a minus whose immediately preceding emitted token is a right
parenthesis goes through the unary-sign branch — it is folded into a
Number token and never emitted as OpSub; in particular "(1+2)-3"
tokenizes with the Number token "-3" and no OpSub anywhere. -/
theorem C9_minus_after_rparen :
    (∀ (fuel : Nat) (rest : List Char),
      parse_aux (fuel + 1) ('-' :: rest) (some Token.RightParen) =
        (parse_aux fuel (parse_num rest).2
            (some (Token.Number ('-' :: (parse_num rest).1)))).map
          (Token.Number ('-' :: (parse_num rest).1) :: ·)) ∧
    parse "(1+2)-3" = some [Token.LeftParen, Token.Number ['1'],
      Token.OpAdd, Token.Number ['2'], Token.RightParen,
      Token.Number ['-', '3']] ∧
    Token.OpSub ∉ [Token.LeftParen, Token.Number ['1'], Token.OpAdd,
      Token.Number ['2'], Token.RightParen, Token.Number ['-', '3']] :=
  ⟨fun _ _ => rfl, by decide, by decide⟩

/-- C10: at the end of a scan (end of tokens, and likewise at a closing
parenthesis) the evaluator drains the operator stack and returns only
the top of the value stack: with no pending operators, extra values
below the top are silently discarded and no error is raised, while an
empty value stack at that point is the only abort. -/
theorem C10_end_of_scan :
    (∀ (fuel : Nat) (tokens : List Token) (pos : Nat)
        (stack : List Value) (opstack : List Token),
      (tokens[pos]? = none ∨ tokens[pos]? = some Token.RightParen) →
      eval_expression (fuel + 1) tokens pos stack opstack =
        (reduce stack opstack).bind fun s => s.head?.map fun v => (v, pos)) ∧
    (∀ (fuel : Nat) (tokens : List Token) (pos : Nat) (v u : Value)
        (rest : List Value),
      tokens[pos]? = none →
      eval_expression (fuel + 1) tokens pos (v :: u :: rest) [] =
        some (v, pos)) ∧
    (∀ (fuel : Nat) (tokens : List Token) (pos : Nat),
      tokens[pos]? = none →
      eval_expression (fuel + 1) tokens pos [] [] = none) := by
  refine ⟨?_, ?_, ?_⟩
  · intro fuel tokens pos stack opstack h
    rcases h with h | h <;> simp [eval_expression, h]
  · intro fuel tokens pos v u rest h
    simp [eval_expression, h, reduce_nil]
  · intro fuel tokens pos h
    simp [eval_expression, h, reduce_nil]

/-- Witness for C10: with two values left and no pending operator at end
of input, only the top value is returned; with an empty value stack the
evaluation aborts. -/
theorem C10_end_of_scan_witness :
    eval_expression 1 [] 0 [Value.Literal ['2'], Value.Literal ['1']] [] =
      some (Value.Literal ['2'], 0) ∧
    eval_expression 1 [] 0 [] [] = none :=
  ⟨C10_end_of_scan.2.1 0 [] 0 (Value.Literal ['2']) (Value.Literal ['1']) []
     rfl,
   C10_end_of_scan.2.2 0 [] 0 rfl⟩

end Arith

/-- Documented test properties of the specification (section 8) that the
embedding reproduces, kept as a faithfulness check of the model: the
remaining spec test values (unary negation, associativity, precedence,
negatives in groups, decimals, division).  All these values are exactly
representable in `f32`, so the rational model agrees with the Rust
tests. -/
theorem spec_test_properties :
    Arith.eval_value "3 + 4" = some 7 ∧
    Arith.eval_value "-5" = some (-5) ∧
    Arith.eval_value "13 - 21 - 12" = some (-20) ∧
    Arith.eval_value "3 * 4 + 5 - 2" = some 15 ∧
    Arith.eval_value "(1 + -2) * 4 / 2" = some (-2) ∧
    Arith.eval_value "(1 + -2) * 4 / -2" = some 2 ∧
    Arith.eval_value "1 - 2.05" = some (-105/100) ∧
    Arith.eval_value "0.86 * 2" = some (172/100) ∧
    Arith.eval_value "3 / 2" = some (3/2) :=
  ⟨by with_unfolding_all rfl, by with_unfolding_all rfl,
   by with_unfolding_all rfl, by with_unfolding_all rfl,
   by with_unfolding_all rfl, by with_unfolding_all rfl,
   by with_unfolding_all rfl, by with_unfolding_all rfl,
   by with_unfolding_all rfl⟩
